import Mathlib

/-!
# Verification of the PSK31 modulation engine (package `psk31`)

Shallow embedding of `psk31/psk31.go`: the symbol packer (`symbolPacker.Pack`
/ `symbolPacker.Flush`), the segment state machine (`offBlock`,
`preambleBlock`, `transmitBlock`, `endBlock`, `blocks.Next`) and the sample
synthesizer (`Modulator.Modulate`), together with a model of the token
producer (`Modulator.Write`).

Machine integers are embedded as `Nat` with explicit `% 2^w` where the Go
code uses fixed-width arithmetic (`uint8`); Go `int` fields are embedded as
`ℤ`.  Go `float64` values are embedded as `ℚ`: the float operations the code
performs on them (comparisons with `0`, assignment of the constant
`math.Pi`, small-integer additions and a division by 10) are exact at the
values that occur, and `math.Pi` is embedded as the exact rational value of
the IEEE-754 double `math.Pi`.  Go's `float64 → int` conversion truncates
toward zero and Go's `%` is the truncated remainder, so they are embedded
by `goTrunc` and `Int.tmod`.
-/

/-! ## Constants (`psk31.go` lines 12-17) -/

def window : ℤ := 10

def raster : ℤ := 32

def preambleLength : ℤ := 25

def endLength : ℤ := 25

/-- The exact rational value of the IEEE-754 double constant `math.Pi`
(`0x400921FB54442D18`), the value the Go code stores into `phase`. -/
def mathPi : ℚ := 884279719003555 / 281474976710656

/-! ## Tokens and packed items

The Go code moves `interface{}` values through two channels: the `symbols`
channel carries `Symbol` (a `uint16` varicode pattern) or one of the three
control-token channel values (`preambleToken`, `endOfTransmissionToken`,
`endToken`); the `packed` channel carries `uint8` units or those same
control tokens passed through.  Both are embedded as tagged unions. -/

inductive Token where
  | data (sym : ℕ) : Token
  | preambleMarker : Token
  | eotMarker : Token
  | endMarker : Token
deriving DecidableEq, Repr

def Token.isData : Token → Bool
  | .data _ => true
  | _ => false

inductive PackedItem where
  | unit (u : ℕ) : PackedItem
  | preambleMarker : PackedItem
  | eotMarker : PackedItem
  | endMarker : PackedItem
deriving DecidableEq, Repr

/-- The pass-through of a control token from the `symbols` channel to the
`packed` channel (the `default` arm of `symbolPacker.Pack`).  The `.data`
arm is never used: `Pack` handles `Symbol` values separately. -/
def tokenPass : Token → PackedItem
  | .data _ => .unit 0
  | .preambleMarker => .preambleMarker
  | .eotMarker => .eotMarker
  | .endMarker => .endMarker

/-! ## The symbol packer (`symbolPacker`, `psk31.go` lines 124-172) -/

structure SymbolPacker where
  out : ℕ
  lastWasZero : Bool
  outBitIndex : ℕ
  dirty : Bool
deriving DecidableEq, Repr

/-- `symbolPacker.Flush` (`psk31.go` lines 156-172).  Returns the updated
packer state and the `uint8` units sent to the `packed` channel. -/
def SymbolPacker.Flush (p : SymbolPacker) : SymbolPacker × List ℕ :=
  if (p.outBitIndex = 0 ∧ p.lastWasZero = true) ∨ p.dirty = false then
    ({ p with dirty := false }, [])
  else
    let out1 := (p.out * 2 ^ (8 - p.outBitIndex)) % 256
    let extra := if out1 &&& 0x3 ≠ 0 then [0] else []
    ({ out := 0, lastWasZero := p.lastWasZero, outBitIndex := 0, dirty := false },
     out1 :: extra)

/-- The index sequence `i = 15, 14, ..., 0` of the bit loop in
`symbolPacker.Pack`. -/
def packIndices : List ℕ := (List.range 16).reverse

/-- The bit loop of `symbolPacker.Pack` (`psk31.go` lines 134-153): shift
the bits of `inp` (most-significant first) into the accumulator, emitting a
unit whenever it fills, and stop early after two consecutive zero bits. -/
def packLoop (inp : ℕ) : List ℕ → SymbolPacker → SymbolPacker × List ℕ
  | [], p => (p, [])
  | i :: rest, p =>
    let inBit := (inp >>> i) &&& 1
    let out1 := (p.out * 2 + inBit) % 256
    let idx1 := (p.outBitIndex + 1) % 8
    let emitted := if idx1 = 0 then [out1] else []
    let out2 := if idx1 = 0 then 0 else out1
    if p.lastWasZero = true ∧ inBit = 0 then
      ({ out := out2, lastWasZero := p.lastWasZero, outBitIndex := idx1, dirty := p.dirty },
       emitted)
    else
      let p1 : SymbolPacker :=
        { out := out2, lastWasZero := decide (inBit = 0), outBitIndex := idx1, dirty := p.dirty }
      let r := packLoop inp rest p1
      (r.1, emitted ++ r.2)

/-- The default (control-token) arm of `symbolPacker.Pack`: flush, then pass
the token through. -/
def SymbolPacker.packControl (p : SymbolPacker) (item : PackedItem) :
    SymbolPacker × List PackedItem :=
  let r := p.Flush
  (r.1, r.2.map PackedItem.unit ++ [item])

/-- `symbolPacker.Pack` (`psk31.go` lines 131-154). -/
def SymbolPacker.Pack (p : SymbolPacker) (s : Token) : SymbolPacker × List PackedItem :=
  match s with
  | .data sym =>
    let p0 := { p with dirty := true }
    let r := packLoop sym packIndices p0
    (r.1, r.2.map PackedItem.unit)
  | .preambleMarker => p.packControl .preambleMarker
  | .eotMarker => p.packControl .eotMarker
  | .endMarker => p.packControl .endMarker

/-- The zero value of `symbolPacker` (fresh packer in `Modulator.pack`). -/
def SymbolPacker.init : SymbolPacker :=
  { out := 0, lastWasZero := false, outBitIndex := 0, dirty := false }

/-- The draining loop of `Modulator.pack`: feed the token sequence through
the packer, concatenating everything sent to the `packed` channel. -/
def packAll : SymbolPacker → List Token → SymbolPacker × List PackedItem
  | p, [] => (p, [])
  | p, tk :: rest =>
    let r := p.Pack tk
    let rs := packAll r.1 rest
    (rs.1, r.2 ++ rs.2)

/-! ## The varicode table -/

/-- Modelled from the spec: the character → bit-pattern table (`Varicode`,
treated by the spec as static external data) is not among the sources, only
its uniqueness test is.  The spec pins the patterns of the characters its
examples exercise (§8: `a ↦ 1011`, `t ↦ 101`, `A ↦ 1111101`,
`B ↦ 11101011`, `- ↦ 110101`), each stored left-aligned in the 16-bit
`Symbol` as required by `Pack`'s most-significant-first bit loop.  Entries
of other characters are not constrained by any claim; they are modelled by
the single-bit pattern `1`, which satisfies the table's sparse-zero
property (§2: every pattern ends in a `1` and has no two adjacent zeros). -/
def Varicode (c : ℕ) : ℕ :=
  if c = 0x61 then 0xB000
  else if c = 0x74 then 0xA000
  else if c = 0x41 then 0xFA00
  else if c = 0x42 then 0xEB00
  else if c = 0x2D then 0xD400
  else 0x8000

/-- The packed `uint8` units produced for a character sequence followed by a
single control token, mirroring `TestSymbolPacker`: pack each character's
varicode pattern, pack one `endToken`, and keep only the `uint8` units. -/
def packedUnitsOf (chars : List ℕ) : List ℕ :=
  let tokens := chars.map (fun c => Token.data (Varicode c)) ++ [Token.endMarker]
  ((packAll SymbolPacker.init tokens).2).filterMap fun item =>
    match item with
    | .unit u => some u
    | _ => none

/-! ## Segment state machine (`block`, `psk31.go` lines 201-374)

In Go the four block types are mutable structs behind a `block` interface;
they are embedded as one tagged variant carrying each block's fields.  The
single-use ack channels (`preambleToken`, `endToken`) stored in
`preambleBlock`/`endBlock` are single-fire completion signals; their only
observable state to this engine is whether they have been closed, embedded
as the `tokenClosed` flag. -/

inductive Block where
  | off (closed : Bool) : Block
  | preamble (cycles : ℤ) (tokenClosed : Bool) : Block
  | transmit (bits : ℕ) (bitIndex : ℕ) (finished : Bool) : Block
  | endB (cycles : ℤ) (tokenClosed : Bool) : Block
deriving DecidableEq, Repr

/-- Result of a `Cycle` call: the returned `(amplitude, phase,
needNextBlock)` triple plus the block's updated state (in Go the block
mutates itself in place). -/
structure CycleOut where
  amplitude : ℚ
  phase : ℚ
  needNextBlock : Bool
  next : Block
deriving DecidableEq, Repr

/-- `Cycle` of each block (`offBlock.Cycle` lines 272-274,
`preambleBlock.Cycle` lines 281-307, `transmitBlock.Cycle` lines 315-342,
`endBlock.Cycle` lines 349-374).  The `select` on the stored ack channel is
embedded by `tokenClosed`: the receive case fires exactly when the channel
has been closed, the `default` case otherwise. -/
def Block.Cycle : Block → ℚ → ℚ → ℚ → Bool → CycleOut
  | .off closed, _a, _p, _delta, _psc =>
    { amplitude := 0, phase := 0, needNextBlock := !closed, next := .off closed }
  | .preamble cycles tokenClosed, a, p, delta, psc =>
    let amplitude := if cycles = preambleLength then a else delta / (window : ℚ)
    if psc then
      let phase := if p = 0 then mathPi else 0
      if tokenClosed then
        { amplitude := amplitude, phase := phase, needNextBlock := true,
          next := .preamble cycles tokenClosed }
      else
        let cycles1 := cycles - 1
        if cycles1 = 0 then
          { amplitude := amplitude, phase := phase, needNextBlock := true,
            next := .preamble cycles1 true }
        else
          { amplitude := amplitude, phase := phase, needNextBlock := false,
            next := .preamble cycles1 tokenClosed }
    else
      { amplitude := amplitude, phase := p, needNextBlock := false,
        next := .preamble cycles tokenClosed }
  | .transmit bits bitIndex finished, _a, p, delta, psc =>
    let amplitude := delta / (window : ℚ)
    if psc then
      let bit := if !finished then (bits >>> (7 - bitIndex)) &&& 0x01 else 0
      let bitIndex1 := if !finished then (bitIndex + 1) % 8 else bitIndex
      let finished1 := if !finished then decide (bits = 0) || decide (bitIndex1 = 0) else finished
      let phase := if bit = 0 then (if p = 0 then mathPi else 0) else p
      { amplitude := amplitude, phase := phase, needNextBlock := finished1,
        next := .transmit bits bitIndex1 finished1 }
    else
      { amplitude := amplitude, phase := p, needNextBlock := finished,
        next := .transmit bits bitIndex finished }
  | .endB cycles tokenClosed, a, p, delta, psc =>
    let newAmplitude := delta / (window : ℚ)
    let amplitude :=
      if cycles = endLength ∧ a < newAmplitude then newAmplitude
      else if cycles = 1 ∧ newAmplitude < a then newAmplitude
      else a
    if psc then
      if tokenClosed then
        { amplitude := amplitude, phase := p, needNextBlock := true,
          next := .endB cycles tokenClosed }
      else
        let cycles1 := cycles - 1
        if cycles1 = 0 then
          { amplitude := amplitude, phase := p, needNextBlock := true,
            next := .endB cycles1 true }
        else
          { amplitude := amplitude, phase := p, needNextBlock := false,
            next := .endB cycles1 tokenClosed }
    else
      { amplitude := amplitude, phase := p, needNextBlock := false,
        next := .endB cycles tokenClosed }

/-- Acknowledgements fired inside `blocks.Next` (`close(s)` on a token
channel): a preamble marker acknowledged as a no-op, or an
end-of-transmission marker acknowledged. -/
inductive Ack where
  | pre : Ack
  | eot : Ack
deriving DecidableEq, Repr

/-- `blocks.Next` (`psk31.go` lines 217-242): consume packed items until a
new block is determined.  Go's `select` takes whichever of the packed
channel and the cancellation channel is ready, with the `default` arm when
neither is; the embedding resolves the race by observing cancellation
first — the resolution the spec fixes ("the Sample Synthesizer's next call
observes the pinned Off state") — and treats the queue front as the ready
channel value otherwise.  Returns the new block, the remaining queue, and
the acks fired. -/
def blocksNext : List PackedItem → Block → Bool → Block × List PackedItem × List Ack
  | queue, _current, true => (.off true, queue, [])
  | [], current, false => (current, [], [])
  | item :: rest, current, false =>
    match item with
    | .unit u => (.transmit u 0 false, rest, [])
    | .preambleMarker =>
      match current with
      | .transmit b i f =>
        let nxt := blocksNext rest (.transmit b i f) false
        (nxt.1, nxt.2.1, .pre :: nxt.2.2)
      | _ => (.preamble preambleLength false, rest, [])
    | .eotMarker =>
      let nxt := blocksNext rest current false
      (nxt.1, nxt.2.1, .eot :: nxt.2.2)
    | .endMarker => (.endB endLength false, rest, [])

/-! ## The sample synthesizer (`Modulator.Modulate`, `psk31.go` lines 174-199) -/

/-- Go's `float64 → int` conversion: truncation toward zero. -/
def goTrunc (q : ℚ) : ℤ := if 0 ≤ q then ⌊q⌋ else ⌈q⌉

/-- `ms := t * 1000.0`. -/
def msOf (t : ℚ) : ℚ := t * 1000

/-- `fraction := ms - float64(int(ms))`. -/
def fractionOf (t : ℚ) : ℚ := msOf t - (goTrunc (msOf t) : ℚ)

/-- `rasterTime := int(ms) % raster` (Go's `%` is the truncated
remainder, `Int.tmod`). -/
def rasterCell (t : ℚ) : ℤ := Int.tmod (goTrunc (msOf t)) raster

/-- The windowed ramp value `delta` of `Modulator.Modulate` (`rasterTime`
is `rasterCell t`). -/
def deltaOf (t : ℚ) : ℚ :=
  if rasterCell t < window then (rasterCell t : ℚ) + fractionOf t
  else if raster - window < rasterCell t then ((raster - rasterCell t : ℤ) : ℚ) - fractionOf t
  else (window : ℚ)

structure Modulator where
  block : Block
  phaseSwitchCycle : Bool
  carrierFrequency : ℚ
  packed : List PackedItem
  closed : Bool
deriving DecidableEq, Repr

/-- `NewModulator` (`psk31.go` lines 40-51): fresh engine at the given
carrier frequency, current block `off(false)`, `phaseSwitchCycle` at its
zero value `false`, nothing packed yet, not cancelled. -/
def NewModulator (frequency : ℚ) : Modulator :=
  { block := .off false, phaseSwitchCycle := false, carrierFrequency := frequency,
    packed := [], closed := false }

/-- The phase-switch-boundary flag `rasterTime == 0 && m.phaseSwitchCycle`
passed to the active block's `Cycle`. -/
def boundaryFlag (m : Modulator) (t : ℚ) : Bool :=
  decide (rasterCell t = 0) && m.phaseSwitchCycle

/-- `Modulator.Modulate` (`psk31.go` lines 174-199): returns the
`(amplitude, frequency, phase)` triple and the updated engine state. -/
def Modulator.Modulate (m : Modulator) (t a _f p : ℚ) : (ℚ × ℚ × ℚ) × Modulator :=
  let c := m.block.Cycle a p (deltaOf t) (boundaryFlag m t)
  let psc1 := decide (rasterCell t ≠ 0)
  let m1 :=
    if c.needNextBlock then
      let nxt := blocksNext m.packed c.next m.closed
      { m with block := nxt.1, packed := nxt.2.1, phaseSwitchCycle := psc1 }
    else
      { m with block := c.next, phaseSwitchCycle := psc1 }
  ((c.amplitude, m.carrierFrequency, c.phase), m1)

/-- Iterated sampling: feed a list of `(t, a, f, p)` call arguments through
`Modulate`, threading the engine state. -/
def modulateRun : Modulator → List (ℚ × ℚ × ℚ × ℚ) → List (ℚ × ℚ × ℚ) × Modulator
  | m, [] => ([], m)
  | m, (t, a, f, p) :: rest =>
    let r := m.Modulate t a f p
    let rs := modulateRun r.2 rest
    (r.1 :: rs.1, rs.2)

/-! ## The token producer (`Modulator.Write`, `psk31.go` lines 89-110)

`Write` first sends a fresh `preambleToken`, then for each byte `b` sends
`Varicode[b&0x7F]`, aborting with `ErrWriteAborted` as soon as the
cancellation channel is observed; after the last byte it sends an
end-of-transmission token and blocks for its ack (aborting on
cancellation).  The embedding makes the cancellation interleaving explicit:
`cancelAt = some k` means cancellation is observed before the `k`-th byte
is sent (or, if `k ≥ bytes.length`, while waiting for the
end-of-transmission ack); `cancelAt = none` means it is never observed.
Returns the tokens sent, the reported byte count `n`, and whether the
aborted-write error was returned. -/
def writeTokens (bytes : List ℕ) (cancelAt : Option ℕ) : List Token × ℕ × Bool :=
  match cancelAt with
  | none =>
    (Token.preambleMarker :: bytes.map (fun b => Token.data (Varicode (b &&& 0x7F)))
       ++ [Token.eotMarker],
     bytes.length, false)
  | some k =>
    if k < bytes.length then
      (Token.preambleMarker ::
         (bytes.take k).map (fun b => Token.data (Varicode (b &&& 0x7F))),
       k, true)
    else
      (Token.preambleMarker :: bytes.map (fun b => Token.data (Varicode (b &&& 0x7F)))
         ++ [Token.eotMarker],
       bytes.length, true)

/-- The varicode patterns of the `Data` tokens in a token list. -/
def dataSyms (tokens : List Token) : List ℕ :=
  tokens.filterMap fun tk =>
    match tk with
    | .data s => some s
    | _ => none

/-! ## Packer lemmas -/

/-- States of `symbolPacker` reachable from the zero value: the accumulator
is empty whenever the bit index is `0`, and a clean packer has an empty
accumulator and bit index `0`. -/
def PackerInv (p : SymbolPacker) : Prop :=
  (p.outBitIndex = 0 → p.out = 0) ∧ (p.dirty = false → p.outBitIndex = 0 ∧ p.out = 0)

lemma packLoop_fst_inv (inp : ℕ) (l : List ℕ) (p : SymbolPacker)
    (h : p.outBitIndex = 0 → p.out = 0) :
    ((packLoop inp l p).1.outBitIndex = 0 → (packLoop inp l p).1.out = 0) ∧
      (packLoop inp l p).1.dirty = p.dirty := by
  induction l generalizing p with
  | nil => exact ⟨h, rfl⟩
  | cons i rest ih =>
    simp only [packLoop]
    split
    · refine ⟨fun h0 => ?_, rfl⟩
      simp only at h0 ⊢
      split
      · rfl
      · exact absurd h0 (by assumption)
    · exact ih _ (by intro h0; simp only at h0 ⊢; split <;> simp_all)

lemma flush_reset (p : SymbolPacker) (hp : PackerInv p) :
    (p.Flush).1 = { out := 0, lastWasZero := p.lastWasZero, outBitIndex := 0, dirty := false } := by
  rw [SymbolPacker.Flush]
  split
  · rename_i hc
    rcases hc with ⟨h0, _⟩ | hd
    · simp [hp.1 h0, h0]
    · obtain ⟨h0, hout⟩ := hp.2 hd
      simp [h0, hout]
  · rfl

lemma flush_of_clean (l : Bool) :
    SymbolPacker.Flush { out := 0, lastWasZero := l, outBitIndex := 0, dirty := false } =
      ({ out := 0, lastWasZero := l, outBitIndex := 0, dirty := false }, []) := by
  rw [SymbolPacker.Flush]
  simp

lemma pack_control_of_clean (l : Bool) (tk : Token) (hd : tk.isData = false) :
    SymbolPacker.Pack { out := 0, lastWasZero := l, outBitIndex := 0, dirty := false } tk =
      ({ out := 0, lastWasZero := l, outBitIndex := 0, dirty := false }, [tokenPass tk]) := by
  cases tk with
  | data s => simp [Token.isData] at hd
  | preambleMarker => simp [SymbolPacker.Pack, SymbolPacker.packControl, flush_of_clean, tokenPass]
  | eotMarker => simp [SymbolPacker.Pack, SymbolPacker.packControl, flush_of_clean, tokenPass]
  | endMarker => simp [SymbolPacker.Pack, SymbolPacker.packControl, flush_of_clean, tokenPass]

lemma packAll_control_of_clean (l : Bool) (tks : List Token)
    (hd : ∀ tk ∈ tks, tk.isData = false) :
    packAll { out := 0, lastWasZero := l, outBitIndex := 0, dirty := false } tks =
      ({ out := 0, lastWasZero := l, outBitIndex := 0, dirty := false }, tks.map tokenPass) := by
  induction tks with
  | nil => rfl
  | cons tk rest ih =>
    simp [packAll, pack_control_of_clean l tk (hd tk (by simp)),
      ih (fun x hx => hd x (by simp [hx]))]

/-! ## Claim theorems: the symbol packer -/

/-- C1: packing the varicode patterns of each listed input's characters
followed by a single control token yields exactly the listed 8-bit units:
`"aaa" ↦ [0b10110010, 0b11001011, 0x00]`, `"A" ↦ [0b11111010, 0x00]`,
`"B" ↦ [0b11101011, 0x00]`, `"-" ↦ [0b11010100]` (no trailing zero unit),
and the empty input yields the empty sequence. -/
theorem packer_run_shortening_vectors :
    packedUnitsOf [0x61, 0x61, 0x61] = [0b10110010, 0b11001011, 0x00] ∧
    packedUnitsOf [0x41] = [0b11111010, 0x00] ∧
    packedUnitsOf [0x42] = [0b11101011, 0x00] ∧
    packedUnitsOf [0x2D] = [0b11010100] ∧
    packedUnitsOf [] = [] := by
  decide

/-- C2, counterexample: the state of the packer after packing `"A"` is
`⟨out := 0, lastWasZero := true, outBitIndex := 1, dirty := true⟩`;
processing a non-`Data` token there pads the accumulator to the unit
`0b00000000`, whose low two bits are both zero — yet exactly one unit is
emitted before the token, with no extra all-zero unit following it (the
code emits the extra unit when `out & 0x3 != 0`, i.e. when the low two
bits are NOT both zero). -/
theorem flush_gap_marker_counterexample :
    (SymbolPacker.Pack ⟨0, true, 1, true⟩ Token.endMarker).2
        = [PackedItem.unit 0, PackedItem.endMarker] ∧
      (0 : ℕ) &&& 0x3 = 0 ∧
      (SymbolPacker.Pack ⟨0, true, 1, true⟩ Token.endMarker).2
        ≠ [PackedItem.unit 0, PackedItem.unit 0, PackedItem.endMarker] := by
  decide

/-- C2, amended: when the packer processes a non-`Data` token while its
accumulator is partially filled (bit index in `1..7`, dirty), it pads the
accumulator with zero bits to a full unit and emits that unit, and it emits
one extra all-zero unit exactly when the padded unit's low two bits are NOT
both zero; the token itself is then passed through unchanged, and the
packer state is reset. -/
theorem flush_pads_and_gap_marker (p : SymbolPacker) (tk : Token)
    (hd : tk.isData = false) (h1 : 1 ≤ p.outBitIndex) (h7 : p.outBitIndex ≤ 7)
    (hdirty : p.dirty = true) :
    (p.Pack tk).2 =
        PackedItem.unit ((p.out * 2 ^ (8 - p.outBitIndex)) % 256) ::
          (if ((p.out * 2 ^ (8 - p.outBitIndex)) % 256) &&& 0x3 ≠ 0
            then [PackedItem.unit 0] else [])
          ++ [tokenPass tk] ∧
      (p.Pack tk).1 =
        { out := 0, lastWasZero := p.lastWasZero, outBitIndex := 0, dirty := false } := by
  have hflush : p.Flush =
      ({ out := 0, lastWasZero := p.lastWasZero, outBitIndex := 0, dirty := false },
        ((p.out * 2 ^ (8 - p.outBitIndex)) % 256) ::
          (if ((p.out * 2 ^ (8 - p.outBitIndex)) % 256) &&& 0x3 ≠ 0 then [0] else [])) := by
    rw [SymbolPacker.Flush, if_neg]
    intro hc
    rcases hc with ⟨h0, _⟩ | h
    · omega
    · rw [hdirty] at h
      exact absurd h (by decide)
  cases tk with
  | data s => simp [Token.isData] at hd
  | preambleMarker =>
    refine ⟨?_, ?_⟩ <;> simp [SymbolPacker.Pack, SymbolPacker.packControl, hflush, tokenPass]
    split <;> simp
  | eotMarker =>
    refine ⟨?_, ?_⟩ <;> simp [SymbolPacker.Pack, SymbolPacker.packControl, hflush, tokenPass]
    split <;> simp
  | endMarker =>
    refine ⟨?_, ?_⟩ <;> simp [SymbolPacker.Pack, SymbolPacker.packControl, hflush, tokenPass]
    split <;> simp

/-- C2, witness: the amended theorem at the concrete packer state
`⟨out := 85, lastWasZero := false, outBitIndex := 7, dirty := true⟩` and
the end-of-session token: the padded unit `0b10101010` has low two bits
`10`, so the extra all-zero gap unit IS emitted, then the token follows. -/
theorem flush_pads_and_gap_marker_witness :
    Token.isData Token.endMarker = false ∧
      1 ≤ (7 : ℕ) ∧
      (SymbolPacker.Pack ⟨85, false, 7, true⟩ Token.endMarker).2 =
        PackedItem.unit ((85 * 2 ^ (8 - 7)) % 256) ::
          (if ((85 * 2 ^ (8 - 7)) % 256) &&& 0x3 ≠ 0 then [PackedItem.unit 0] else [])
          ++ [tokenPass Token.endMarker] :=
  ⟨by decide, by decide,
    (flush_pads_and_gap_marker ⟨85, false, 7, true⟩ Token.endMarker (by decide) (by decide)
      (by decide) (by decide)).1⟩

/-- C10, counterexample: flushing is claimed to reset the state for every
packer state, but at the (unreachable) state
`⟨out := 5, lastWasZero := false, outBitIndex := 3, dirty := false⟩` the
flush takes the early-return arm (`!dirty`) and leaves the bit index at `3`
and the accumulator at `5` — not a reset state. -/
theorem flush_reset_counterexample :
    ¬ ((SymbolPacker.Flush ⟨5, false, 3, false⟩).1.outBitIndex = 0 ∧
        (SymbolPacker.Flush ⟨5, false, 3, false⟩).1.out = 0) := by
  decide

/-- C10, amended: for every packer state satisfying the reachable-state
invariant `PackerInv` (which holds at the zero value and is preserved by
every `Pack` step, data or control), one flush resets the state (empty
accumulator, bit index 0, not dirty); an immediately following flush is the
identity and emits nothing, and processing any run of consecutive
non-`Data` tokens from the flushed state emits no packed units beyond
passing the tokens through. -/
theorem flush_idempotent (p : SymbolPacker) (hp : PackerInv p) :
    (p.Flush).1.out = 0 ∧ (p.Flush).1.outBitIndex = 0 ∧ (p.Flush).1.dirty = false ∧
      (p.Flush).1.Flush = ((p.Flush).1, []) ∧
      (∀ tks : List Token, (∀ tk ∈ tks, tk.isData = false) →
        packAll (p.Flush).1 tks = ((p.Flush).1, tks.map tokenPass)) ∧
      (∀ s : Token, PackerInv (p.Pack s).1) ∧
      PackerInv SymbolPacker.init := by
  rw [flush_reset p hp]
  refine ⟨rfl, rfl, rfl, flush_of_clean _, packAll_control_of_clean _, fun s => ?_,
    ⟨fun _ => rfl, fun _ => ⟨rfl, rfl⟩⟩⟩
  cases s with
  | data sym =>
    rw [SymbolPacker.Pack]
    have h := packLoop_fst_inv sym packIndices { p with dirty := true } (fun h0 => hp.1 h0)
    exact ⟨h.1, by simp [h.2]⟩
  | preambleMarker =>
    rw [SymbolPacker.Pack, SymbolPacker.packControl]
    simp only [flush_reset p hp]
    exact ⟨fun _ => rfl, fun _ => ⟨rfl, rfl⟩⟩
  | eotMarker =>
    rw [SymbolPacker.Pack, SymbolPacker.packControl]
    simp only [flush_reset p hp]
    exact ⟨fun _ => rfl, fun _ => ⟨rfl, rfl⟩⟩
  | endMarker =>
    rw [SymbolPacker.Pack, SymbolPacker.packControl]
    simp only [flush_reset p hp]
    exact ⟨fun _ => rfl, fun _ => ⟨rfl, rfl⟩⟩

/-- C10, witness: the amended theorem at the concrete (reachable) state
left by packing `"A"`: one flush resets it and a second flush emits
nothing. -/
theorem flush_idempotent_witness :
    PackerInv ⟨0, true, 1, true⟩ ∧
      ((SymbolPacker.Flush ⟨0, true, 1, true⟩).1.out = 0 ∧
        (SymbolPacker.Flush ⟨0, true, 1, true⟩).1.outBitIndex = 0 ∧
        (SymbolPacker.Flush ⟨0, true, 1, true⟩).1.dirty = false) ∧
      (SymbolPacker.Flush ⟨0, true, 1, true⟩).1.Flush =
        ((SymbolPacker.Flush ⟨0, true, 1, true⟩).1, []) :=
  ⟨⟨fun _ => rfl, fun h => absurd h (by decide)⟩,
    ⟨(flush_idempotent ⟨0, true, 1, true⟩ ⟨fun _ => rfl, fun h => absurd h (by decide)⟩).1,
      (flush_idempotent ⟨0, true, 1, true⟩ ⟨fun _ => rfl, fun h => absurd h (by decide)⟩).2.1,
      (flush_idempotent ⟨0, true, 1, true⟩ ⟨fun _ => rfl, fun h => absurd h (by decide)⟩).2.2.1⟩,
    (flush_idempotent ⟨0, true, 1, true⟩ ⟨fun _ => rfl, fun h => absurd h (by decide)⟩).2.2.2.1⟩

/-! ## Claim theorems: per-tick phase behavior of the segments -/

lemma mathPi_ne_zero : mathPi ≠ 0 := by
  norm_num [mathPi]

/-- C4, counterexample: the claim quantifies over every segment, but the
Off segment's per-tick update returns phase `0` unconditionally
(`offBlock.Cycle` returns `0, 0, !b.closed`): on a tick whose
phase-switch-boundary flag is false and whose incoming phase is `math.Pi`,
the phase returned is `0`, not the phase passed in. -/
theorem off_phase_not_preserved_counterexample :
    ((Block.off false).Cycle 0 mathPi 10 false).phase = 0 ∧ mathPi ≠ 0 :=
  ⟨rfl, mathPi_ne_zero⟩

/-- C4, amended: for the Preamble, Transmit and End segments, every
per-tick update call whose phase-switch-boundary flag is false returns the
phase passed in unchanged; the Off segment instead returns phase `0` on
every tick, whatever flag or phase it is given. -/
theorem cycle_phase_preserved_off_boundary (a p delta : ℚ) (cy : ℤ) (tc : Bool)
    (bits bi : ℕ) (fin cl psc : Bool) :
    ((Block.preamble cy tc).Cycle a p delta false).phase = p ∧
      ((Block.transmit bits bi fin).Cycle a p delta false).phase = p ∧
      ((Block.endB cy tc).Cycle a p delta false).phase = p ∧
      ((Block.off cl).Cycle a p delta psc).phase = 0 := by
  refine ⟨?_, ?_, ?_, rfl⟩ <;> simp [Block.Cycle]

/-- C5: within a Transmit segment that is not yet finished, a boundary tick
consumes the next bit of the current 8-bit unit most-significant-bit first
(bit `(bits >> (7-bitIndex)) & 1`, bit index advancing mod 8); a bit of
value 0 flips the phase between 0 and `math.Pi`, a bit of value 1 leaves
the phase unchanged; and the segment reports exhaustion exactly when all 8
bits have been consumed or the unit's value is all-zero. -/
theorem transmit_consumes_msb_first (bits bi : ℕ) (a p delta : ℚ)
    (_hbi : bi < 8) (hp : p = 0 ∨ p = mathPi) :
    ((bits >>> (7 - bi)) &&& 1 = 0 →
        (p = 0 → ((Block.transmit bits bi false).Cycle a p delta true).phase = mathPi) ∧
        (p = mathPi → ((Block.transmit bits bi false).Cycle a p delta true).phase = 0)) ∧
      ((bits >>> (7 - bi)) &&& 1 = 1 →
        ((Block.transmit bits bi false).Cycle a p delta true).phase = p) ∧
      ((Block.transmit bits bi false).Cycle a p delta true).next =
        Block.transmit bits ((bi + 1) % 8)
          (decide (bits = 0) || decide ((bi + 1) % 8 = 0)) ∧
      (((Block.transmit bits bi false).Cycle a p delta true).needNextBlock = true ↔
        (bits = 0 ∨ (bi + 1) % 8 = 0)) := by
  refine ⟨fun hb => ⟨fun hp0 => ?_, fun hpPi => ?_⟩, fun hb => ?_, ?_, ?_⟩
  · simp [Block.Cycle, hb, hp0]
  · subst hpPi
    simp [Block.Cycle, hb, mathPi_ne_zero]
  · simp [Block.Cycle, hb]
  · simp [Block.Cycle]
  · simp [Block.Cycle]

/-- C5, witness: the first boundary tick of a Transmit segment holding the
unit `0b10110010` at phase 0: the most-significant bit `1` is consumed,
the phase is preserved, and the segment is not yet exhausted. -/
theorem transmit_consumes_msb_first_witness :
    (0 : ℕ) < 8 ∧ ((0 : ℚ) = 0 ∨ (0 : ℚ) = mathPi) ∧
      (((0b10110010 : ℕ) >>> (7 - 0)) &&& 1 = 1 →
        ((Block.transmit 0b10110010 0 false).Cycle 0 0 10 true).phase = 0) ∧
      (((Block.transmit 0b10110010 0 false).Cycle 0 0 10 true).needNextBlock = true ↔
        ((0b10110010 : ℕ) = 0 ∨ (0 + 1) % 8 = 0)) :=
  ⟨by decide, Or.inl rfl,
    (transmit_consumes_msb_first 0b10110010 0 0 0 10 (by decide) (Or.inl rfl)).2.1,
    (transmit_consumes_msb_first 0b10110010 0 0 0 10 (by decide) (Or.inl rfl)).2.2.2⟩

/-- C7: a `PreambleMarker` dequeued while the current segment is Transmit
is acknowledged immediately and consumed as a no-op — the sequencer goes on
processing the rest of the queue with the same current segment, so no new
Preamble is opened by it; a `PreambleMarker` dequeued while the current
segment is Off or End opens a fresh Preamble segment. -/
theorem preamble_marker_dispatch (rest : List PackedItem) (b bi : ℕ) (f : Bool)
    (cl : Bool) (cy : ℤ) (tc : Bool) :
    blocksNext (PackedItem.preambleMarker :: rest) (Block.transmit b bi f) false =
        ((blocksNext rest (Block.transmit b bi f) false).1,
          (blocksNext rest (Block.transmit b bi f) false).2.1,
          Ack.pre :: (blocksNext rest (Block.transmit b bi f) false).2.2) ∧
      blocksNext (PackedItem.preambleMarker :: rest) (Block.off cl) false =
        (Block.preamble preambleLength false, rest, []) ∧
      blocksNext (PackedItem.preambleMarker :: rest) (Block.endB cy tc) false =
        (Block.preamble preambleLength false, rest, []) :=
  ⟨rfl, rfl, rfl⟩

/-! ## Raster-timing lemmas -/

lemma goTrunc_of_nonneg (q : ℚ) (hq : 0 ≤ q) : goTrunc q = ⌊q⌋ := if_pos hq

lemma fraction_bounds (t : ℚ) (ht : 0 ≤ t) : 0 ≤ fractionOf t ∧ fractionOf t < 1 := by
  have hms : 0 ≤ msOf t := by
    unfold msOf
    positivity
  unfold fractionOf
  rw [goTrunc_of_nonneg _ hms]
  constructor
  · linarith [Int.floor_le (msOf t)]
  · linarith [Int.lt_floor_add_one (msOf t)]

lemma rasterCell_bounds (t : ℚ) (ht : 0 ≤ t) : 0 ≤ rasterCell t ∧ rasterCell t ≤ 31 := by
  have hms : 0 ≤ msOf t := by
    unfold msOf
    positivity
  have hfl : 0 ≤ ⌊msOf t⌋ := Int.floor_nonneg.mpr hms
  unfold rasterCell
  rw [goTrunc_of_nonneg _ hms, Int.tmod_eq_emod hfl (by norm_num [raster])]
  have h1 : 0 ≤ ⌊msOf t⌋ % raster := Int.emod_nonneg _ (by norm_num [raster])
  have h2 : ⌊msOf t⌋ % raster < raster := Int.emod_lt_of_pos _ (by norm_num [raster])
  refine ⟨h1, ?_⟩
  have : raster = 32 := rfl
  omega

lemma delta_bounds (t : ℚ) (ht : 0 ≤ t) : 0 ≤ deltaOf t ∧ deltaOf t ≤ 10 := by
  obtain ⟨hf0, hf1⟩ := fraction_bounds t ht
  obtain ⟨hr0, hr31⟩ := rasterCell_bounds t ht
  unfold deltaOf
  have hw : window = (10 : ℤ) := rfl
  have hra : raster = (32 : ℤ) := rfl
  split_ifs with h1 h2
  · rw [hw] at h1
    have hc9 : (rasterCell t : ℚ) ≤ 9 := by
      have : rasterCell t ≤ 9 := by omega
      exact_mod_cast this
    have hc0 : (0 : ℚ) ≤ (rasterCell t : ℚ) := by exact_mod_cast hr0
    constructor <;> linarith
  · rw [hra, hw] at h2
    have hc1 : (1 : ℚ) ≤ ((raster - rasterCell t : ℤ) : ℚ) := by
      have : (1 : ℤ) ≤ raster - rasterCell t := by omega
      exact_mod_cast this
    have hc9 : ((raster - rasterCell t : ℤ) : ℚ) ≤ 9 := by
      have : (raster - rasterCell t : ℤ) ≤ 9 := by omega
      exact_mod_cast this
    constructor <;> linarith
  · norm_num [window]

/-! ## Claim theorems: cancellation and the pinned Off segment -/

lemma rasterCell_ms15 : rasterCell (15/1000 : ℚ) = 15 := by
  unfold rasterCell
  rw [show msOf (15/1000 : ℚ) = 15 by norm_num [msOf], goTrunc_of_nonneg _ (by norm_num),
    show ⌊(15 : ℚ)⌋ = 15 by norm_num]
  decide

lemma deltaOf_ms15 : deltaOf (15/1000 : ℚ) = 10 := by
  unfold deltaOf
  rw [rasterCell_ms15]
  norm_num [window, raster]

lemma modulate_off_closed (m : Modulator) (hb : m.block = Block.off true) (t a f p : ℚ) :
    (m.Modulate t a f p).1 = (0, m.carrierFrequency, 0) ∧
      (m.Modulate t a f p).2.block = Block.off true ∧
      (m.Modulate t a f p).2.carrierFrequency = m.carrierFrequency := by
  simp [Modulator.Modulate, hb, Block.Cycle]

lemma modulateRun_off_closed (calls : List (ℚ × ℚ × ℚ × ℚ)) :
    ∀ m : Modulator, m.block = Block.off true →
      (∀ r ∈ (modulateRun m calls).1, r = (0, m.carrierFrequency, 0)) ∧
        (modulateRun m calls).2.block = Block.off true := by
  induction calls with
  | nil =>
    intro m hb
    exact ⟨by simp [modulateRun], hb⟩
  | cons c rest ih =>
    intro m hb
    obtain ⟨t, a, f, p⟩ := c
    have hstep := modulate_off_closed m hb t a f p
    have hrest := ih (m.Modulate t a f p).2 hstep.2.1
    constructor
    · intro r hr
      simp only [modulateRun, List.mem_cons] at hr
      rcases hr with hr | hr
      · rw [hr, hstep.1]
      · have := hrest.1 r hr
        rw [this, hstep.2.2]
    · exact hrest.2

/-- C3, counterexample: cancellation alone does not pin the engine.  With
the cancellation flag already set but a Transmit segment mid-unit (unit
`0xFF`, bit index 3), the sample call at `t = 15 ms` still returns
amplitude 1, not 0.  Moreover in the closed Off segment the phase returned
is the constant 0, not the last emitted phase: a call passing the last
emitted phase `math.Pi` gets back `0 ≠ math.Pi`. -/
theorem cancellation_pinning_counterexample :
    ({ block := Block.transmit 255 3 false, phaseSwitchCycle := true,
        carrierFrequency := 1000, packed := [], closed := true } : Modulator).closed = true ∧
      (({ block := Block.transmit 255 3 false, phaseSwitchCycle := true,
          carrierFrequency := 1000, packed := [], closed := true } : Modulator).Modulate
          (15/1000) 1 0 0).1.1 = 1 ∧
      (({ block := Block.off true, phaseSwitchCycle := true, carrierFrequency := 1000,
          packed := [], closed := true } : Modulator).Modulate
          (15/1000) 0 0 mathPi).1.2.2 = 0 ∧
      mathPi ≠ 0 := by
  refine ⟨rfl, ?_, rfl, mathPi_ne_zero⟩
  simp [Modulator.Modulate, boundaryFlag, rasterCell_ms15, deltaOf_ms15, Block.Cycle, window]

/-- C3, amended: once the engine has entered the closed Off segment — which
it does at the first segment exhaustion after cancellation is signaled,
since the sequencer's cancellation arm always yields `Off(closed)` — it
never leaves it: every subsequent sample call returns amplitude 0, the
fixed carrier frequency, and phase 0, forever. -/
theorem off_closed_pinned (m : Modulator) (calls : List (ℚ × ℚ × ℚ × ℚ))
    (hb : m.block = Block.off true) :
    (∀ r ∈ (modulateRun m calls).1, r = (0, m.carrierFrequency, 0)) ∧
      (modulateRun m calls).2.block = Block.off true ∧
      (∀ (q : List PackedItem) (c : Block), blocksNext q c true = (Block.off true, q, [])) := by
  have h := modulateRun_off_closed calls m hb
  exact ⟨h.1, h.2, fun q c => by cases q <;> rfl⟩

/-- C3, witness: a concrete closed-Off engine stays in the closed Off
segment across a two-call run. -/
theorem off_closed_pinned_witness :
    (⟨Block.off true, false, 1000, [], true⟩ : Modulator).block = Block.off true ∧
      (modulateRun ⟨Block.off true, false, 1000, [], true⟩
          [(0, 0, 0, 0), (1, 1, 0, mathPi)]).2.block = Block.off true :=
  ⟨rfl,
    (off_closed_pinned ⟨Block.off true, false, 1000, [], true⟩
        [(0, 0, 0, 0), (1, 1, 0, mathPi)] rfl).2.1⟩

/-! ## Claim theorems: amplitude bounds -/

lemma cycle_amplitude_bounds (b : Block) (a p delta : ℚ) (psc : Bool)
    (ha0 : 0 ≤ a) (ha1 : a ≤ 1) (hd0 : 0 ≤ delta) (hd1 : delta ≤ 10) :
    0 ≤ (b.Cycle a p delta psc).amplitude ∧ (b.Cycle a p delta psc).amplitude ≤ 1 := by
  have hdiv0 : 0 ≤ delta / (window : ℚ) := by
    apply div_nonneg hd0
    norm_num [window]
  have hdiv1 : delta / (window : ℚ) ≤ 1 := by
    rw [div_le_one (by norm_num [window])]
    norm_num [window]
    linarith
  cases b with
  | off closed =>
    refine ⟨le_refl 0, ?_⟩
    show (0 : ℚ) ≤ 1
    norm_num
  | preamble cy tc =>
    simp only [Block.Cycle]
    split_ifs <;> exact ⟨by assumption, by assumption⟩
  | transmit bits bi fin =>
    simp only [Block.Cycle]
    split_ifs <;> exact ⟨hdiv0, hdiv1⟩
  | endB cy tc =>
    simp only [Block.Cycle]
    split_ifs <;> exact ⟨by assumption, by assumption⟩

/-- C8: assuming the amplitude passed into a sample call lies in `[0,1]`
and the timestamp is nonnegative, the amplitude returned lies in `[0,1]`;
and whenever the active segment is Off, the amplitude returned is exactly
0.  (Preamble, Transmit and End compute their amplitude either as the
windowed ramp value divided by the window width or by passing the incoming
amplitude through, so the bound is preserved.) -/
theorem modulate_amplitude_in_unit_interval (m : Modulator) (t a f p : ℚ)
    (ht : 0 ≤ t) (ha0 : 0 ≤ a) (ha1 : a ≤ 1) :
    (0 ≤ (m.Modulate t a f p).1.1 ∧ (m.Modulate t a f p).1.1 ≤ 1) ∧
      (∀ c : Bool, m.block = Block.off c → (m.Modulate t a f p).1.1 = 0) := by
  obtain ⟨hd0, hd1⟩ := delta_bounds t ht
  refine ⟨?_, ?_⟩
  · exact cycle_amplitude_bounds m.block a p (deltaOf t) (boundaryFlag m t) ha0 ha1 hd0 hd1
  · intro c hc
    simp [Modulator.Modulate, hc, Block.Cycle]

/-- C8, witness: a mid-unit Transmit engine sampled at `t = 15 ms` with
incoming amplitude `1/2` returns an amplitude inside `[0,1]`. -/
theorem modulate_amplitude_in_unit_interval_witness :
    (0 : ℚ) ≤ 15/1000 ∧ (0 : ℚ) ≤ 1/2 ∧ (1/2 : ℚ) ≤ 1 ∧
      (0 ≤ ((⟨Block.transmit 255 0 false, true, 1000, [], false⟩ : Modulator).Modulate
          (15/1000) (1/2) 0 0).1.1 ∧
        ((⟨Block.transmit 255 0 false, true, 1000, [], false⟩ : Modulator).Modulate
          (15/1000) (1/2) 0 0).1.1 ≤ 1) :=
  ⟨by norm_num, by norm_num, by norm_num,
    (modulate_amplitude_in_unit_interval ⟨Block.transmit 255 0 false, true, 1000, [], false⟩
        (15/1000) (1/2) 0 0 (by norm_num) (by norm_num) (by norm_num)).1⟩

/-! ## Claim theorems: the phase-switch-boundary flag -/

lemma modulate_psc_update (m : Modulator) (t a f p : ℚ) :
    (m.Modulate t a f p).2.phaseSwitchCycle = decide (rasterCell t ≠ 0) := by
  simp only [Modulator.Modulate]
  split <;> rfl

/-- C9: the phase-switch-boundary flag passed to the active segment on a
call is `rasterCell = 0 && phaseSwitchCycle`, and after any call the
recorded parity is `rasterCell ≠ 0`; hence on the call after a call at
`t₀`, the flag is true exactly when the new call falls in the first raster
cell of a baud period and the previous call did not; two consecutive calls
never both present the flag as true; and the very first call after
construction never does. -/
theorem boundary_flag_alternation (m : Modulator) (t0 t1 tf : ℚ) (a f p freq : ℚ) :
    boundaryFlag (m.Modulate t0 a f p).2 t1 =
        (decide (rasterCell t1 = 0) && decide (rasterCell t0 ≠ 0)) ∧
      (boundaryFlag m t0 = true → boundaryFlag (m.Modulate t0 a f p).2 t1 = false) ∧
      boundaryFlag (NewModulator freq) tf = false := by
  have hpsc := modulate_psc_update m t0 a f p
  refine ⟨by rw [boundaryFlag, hpsc], ?_, by simp [boundaryFlag, NewModulator]⟩
  intro hflag
  rw [boundaryFlag] at hflag
  simp only [Bool.and_eq_true, decide_eq_true_eq] at hflag
  rw [boundaryFlag, hpsc]
  simp [hflag.1]

/-! ## Claim theorems: the token producer -/

/-- C6, counterexample: the byte `0xE1` has no entry in the 7-bit-indexed
bit-pattern table, yet `Write` does not skip it: it is masked to its low 7
bits (`0x61`, the letter `a`) and produces that entry's `Data` token. -/
theorem write_unrepresentable_not_skipped_counterexample :
    (0xE1 : ℕ) &&& 0x7F = 0x61 ∧ 127 < (0xE1 : ℕ) ∧
      dataSyms (writeTokens [0xE1] none).1 = [Varicode 0x61] ∧
      dataSyms (writeTokens [0xE1] none).1 ≠ [] ∧
      (writeTokens [0xE1] none).2 = (1, false) := by
  decide

/-- C6, amended: `Write` never skips a byte: every byte accepted before the
cancellation point is masked to its low 7 bits and produces exactly the
`Data` token of that masked code (bytes outside the 7-bit table are aliased
to their masked entry, not dropped), and the only error `Write` can return
is the aborted-write error on cancellation. -/
theorem write_masks_never_skips (bytes : List ℕ) (cancelAt : Option ℕ) :
    dataSyms (writeTokens bytes cancelAt).1 =
        ((bytes.take (writeTokens bytes cancelAt).2.1).map fun b => Varicode (b &&& 0x7F)) ∧
      ((writeTokens bytes cancelAt).2.2 = cancelAt.isSome) := by
  have hmap : ∀ l : List ℕ,
      dataSyms (l.map fun b => Token.data (Varicode (b &&& 0x7F))) =
        l.map fun b => Varicode (b &&& 0x7F) := by
    intro l
    induction l with
    | nil => rfl
    | cons b rest ih => simpa [dataSyms, List.filterMap_cons] using ih
  have heot : ∀ l : List Token, dataSyms (l ++ [Token.eotMarker]) = dataSyms l := by
    intro l
    simp [dataSyms, List.filterMap_append]
  have hpre : ∀ l : List Token, dataSyms (Token.preambleMarker :: l) = dataSyms l :=
    fun l => rfl
  cases cancelAt with
  | none =>
    refine ⟨?_, rfl⟩
    show dataSyms ((Token.preambleMarker :: bytes.map fun b => Token.data (Varicode (b &&& 0x7F)))
        ++ [Token.eotMarker]) = (bytes.take bytes.length).map fun b => Varicode (b &&& 0x7F)
    rw [heot, hpre, hmap, List.take_length]
  | some k =>
    by_cases hk : k < bytes.length
    · have hw : writeTokens bytes (some k) =
          (Token.preambleMarker :: (bytes.take k).map fun b => Token.data (Varicode (b &&& 0x7F)),
            k, true) := by
        simp [writeTokens, hk]
      rw [hw]
      exact ⟨by rw [hpre, hmap], by simp⟩
    · have hw : writeTokens bytes (some k) =
          ((Token.preambleMarker :: bytes.map fun b => Token.data (Varicode (b &&& 0x7F)))
              ++ [Token.eotMarker],
            bytes.length, true) := by
        simp [writeTokens, hk]
      rw [hw]
      exact ⟨by rw [heot, hpre, hmap, List.take_length], by simp⟩
